import Mathlib

/-!
# Verification of the forum thread bot core (src/main.py)

Shallow embedding of the pure core of the bot:

* the link store (`_links : Dict[str, List[int]]` with `add_link` / `pop_links`),
  modelled as an association list from string keys to lists of thread ids,
  together with the durable-flush flag (`save_links` calls);
* the deletion cascade (`on_raw_message_delete`), modelled as a function from
  a platform fetch oracle and a store to the new store and the list of
  platform calls issued;
* the router (`gather_target_forums`), modelled over a routing configuration,
  the member role-id list, and a channel-resolution oracle
  (`isinstance(guild.get_channel(fid), discord.ForumChannel)`);
* thread naming (`make_thread_name`): timestamps are modelled as seconds since
  the Unix epoch (all instants of interest are after 1970), the fixed zone
  Asia/Tokyo as the constant offset +9h (no DST), and the civil calendar by
  the standard era-based Gregorian conversion;
* the name convention (`name_belongs_to_user`, Python `str.startswith`
  modelled as code-point list prefixing) and the thread identity resolver
  (`find_existing_user_thread`), with archived-thread enumeration modelled as
  an `Except` value (the platform either yields the archived list, bounded by
  the `limit=200` argument, or fails);
* the base-time resolution in `on_message` (`created_at or datetime.now(JST)`
  followed by `replace(tzinfo=JST)` for naive values), with Python datetimes
  modelled as either aware (an instant) or naive (civil seconds).
-/

namespace Suretto

/-! ## Link store (`_links`, `add_link`, `pop_links`) -/

/-- The persisted mapping `{ "<message_id>": [<thread_id>, ...] }`, modelled
as an association list (Python dicts preserve insertion order). -/
abbrev Store := List (String × List Nat)

/-- Dictionary lookup: the value at key `k`, if present. -/
def lookupKey (k : String) : Store → Option (List Nat)
  | [] => none
  | p :: rest => if p.1 = k then some p.2 else lookupKey k rest

/-- In-place update of the value at key `k` (dict item assignment keeps the
entry position). -/
def setKey (k : String) (v : List Nat) (s : Store) : Store :=
  s.map (fun p => if p.1 = k then (k, v) else p)

/-- Dictionary `pop`: remove the entry at key `k` if present. -/
def removeKey (k : String) (s : Store) : Store :=
  s.filter (fun p => decide (p.1 ≠ k))

/-- `add_link(message_id, thread_id)`: `setdefault(key, [])`, append the
thread id if not already present, and flush (`save_links`) on a real insert.
Returns the new store and whether a durable flush was triggered. -/
def add_link (message_id thread_id : Nat) (s : Store) : Store × Bool :=
  let key := toString message_id
  match lookupKey key s with
  | none => (s ++ [(key, [thread_id])], true)
  | some ids =>
    if thread_id ∈ ids then (s, false)
    else (setKey key (ids ++ [thread_id]) s, true)

/-- `pop_links(message_id)`: `_links.pop(key, [])`, flushing
(`save_links`) only when the popped list is non-empty. Returns the popped
ids, the new store, and the flush flag. -/
def pop_links (message_id : Nat) (s : Store) : List Nat × Store × Bool :=
  let key := toString message_id
  let ids := (lookupKey key s).getD []
  (ids, removeKey key s, !ids.isEmpty)

/-! ## Deletion cascade (`on_raw_message_delete`) -/

/-- Outcome of `bot.fetch_channel(tid)` as the handler observes it:
the channel is a `discord.Thread`, a non-thread channel, not found
(`discord.NotFound`), or the call fails (`Forbidden` / `HTTPException` /
anything else, all caught per-thread). -/
inductive FetchResult where
  | thread
  | nonThread
  | notFound
  | failure
deriving DecidableEq

/-- A platform call issued by the deletion handler. -/
inductive PCall where
  | fetchChannel (tid : Nat)
  | deleteThread (tid : Nat)
deriving DecidableEq

/-- The per-thread loop of `on_raw_message_delete`: fetch each channel and
delete it when it resolves to a thread; every error outcome is caught and
the loop continues. -/
def delete_cascade (fetch : Nat → FetchResult) : List Nat → List PCall
  | [] => []
  | tid :: rest =>
    PCall.fetchChannel tid ::
      ((match fetch tid with
        | FetchResult.thread => [PCall.deleteThread tid]
        | _ => []) ++ delete_cascade fetch rest)

/-- `on_raw_message_delete(payload)`: pop the linked thread ids; if none,
return at once (no platform call); otherwise run the per-thread cascade.
Returns the new store and the platform calls issued. -/
def on_raw_message_delete (fetch : Nat → FetchResult) (message_id : Nat)
    (s : Store) : Store × List PCall :=
  let r := pop_links message_id s
  if r.1.isEmpty then (r.2.1, [])
  else (r.2.1, delete_cascade fetch r.1)

/-- The thread ids the handler issued `delete` calls for. -/
def deleteCallsOf (calls : List PCall) : List Nat :=
  calls.filterMap (fun c => match c with
    | PCall.deleteThread t => some t
    | _ => none)

/-! ## Link-store operation sequences (for the cross-linking invariant) -/

/-- One link-store operation with arbitrary arguments. -/
inductive LinkOp where
  | add (message_id thread_id : Nat)
  | popAll (message_id : Nat)

/-- Apply one operation to the store (the flush flag is irrelevant here). -/
def applyOp (s : Store) : LinkOp → Store
  | LinkOp.add m t => (add_link m t s).1
  | LinkOp.popAll m => (pop_links m s).2.1

/-- Run a sequence of operations. -/
def runOps (s : Store) (ops : List LinkOp) : Store := ops.foldl applyOp s

/-- No cross-linking: a thread id appears under at most one message key. -/
def NoCrossLink (s : Store) : Prop :=
  ∀ p ∈ s, ∀ q ∈ s, p.1 ≠ q.1 → ∀ t ∈ p.2, t ∉ q.2

instance (s : Store) : Decidable (NoCrossLink s) := by
  unfold NoCrossLink; infer_instance

/-- Stepwise freshness: every `add m t` in the sequence links a thread id
that is not, at that point, recorded under a different message key (as holds
in the creation path, where thread ids are platform-fresh). -/
def freshAdds : Store → List LinkOp → Bool
  | _, [] => true
  | s, LinkOp.add m t :: rest =>
    (s.all fun p => decide (p.1 = toString m ∨ t ∉ p.2)) &&
      freshAdds (applyOp s (LinkOp.add m t)) rest
  | s, LinkOp.popAll m :: rest => freshAdds (applyOp s (LinkOp.popAll m)) rest

/-! ## Router (`gather_target_forums`) -/

/-- The immutable routing configuration (environment-sourced ids). -/
structure RoutingConfig where
  maleRoleId : Nat
  femaleRoleId : Nat
  maleForumIds : List Nat
  femaleForumIds : List Nat
  defaultForumIds : List Nat

/-- The candidate accumulation before the default fallback:
`id_candidates` after the two `if has_*` blocks. -/
def label_candidates (cfg : RoutingConfig) (memberRoleIds : List Nat) : List Nat :=
  (if memberRoleIds.contains cfg.maleRoleId then cfg.maleForumIds else []) ++
    (if memberRoleIds.contains cfg.femaleRoleId then cfg.femaleForumIds else [])

/-- `id_candidates` after the `if not id_candidates` default fallback. -/
def forum_candidates (cfg : RoutingConfig) (memberRoleIds : List Nat) : List Nat :=
  let idc := label_candidates cfg memberRoleIds
  if idc.isEmpty then cfg.defaultForumIds else idc

/-- The dedup-and-filter loop over candidates: `seen` is the Python set,
`isForum fid` models `isinstance(guild.get_channel(fid), discord.ForumChannel)`.
The id is added to `seen` whether or not it resolves to a forum. -/
def gather_loop (isForum : Nat → Bool) : List Nat → List Nat → List Nat
  | _, [] => []
  | seen, fid :: rest =>
    if fid ∈ seen then gather_loop isForum seen rest
    else if isForum fid then fid :: gather_loop isForum (fid :: seen) rest
    else gather_loop isForum (fid :: seen) rest

/-- `gather_target_forums(guild, member)`: role test, candidate accumulation,
default fallback, then first-seen dedup keeping only forum channels.
The result lists the ids of the returned forum channels. -/
def gather_target_forums (cfg : RoutingConfig) (memberRoleIds : List Nat)
    (isForum : Nat → Bool) : List Nat :=
  gather_loop isForum [] (forum_candidates cfg memberRoleIds)

/-- Specification-level first-seen deduplication (keep the first occurrence,
drop later ones), parametrised by the already-seen ids. -/
def dedup_first : List Nat → List Nat → List Nat
  | _, [] => []
  | seen, x :: rest =>
    if x ∈ seen then dedup_first seen rest
    else x :: dedup_first (x :: seen) rest

/-! ## Thread naming (`make_thread_name`) -/

/-- Day number (days since 1970-01-01) of a Gregorian civil date, by the
standard era decomposition; valid for dates from 1970 on. -/
def days_from_civil (y m d : Nat) : Nat :=
  let y2 := if m ≤ 2 then y - 1 else y
  let era := y2 / 400
  let yoe := y2 % 400
  let mp := if 2 < m then m - 3 else m + 9
  let doy := (153 * mp + 2) / 5 + d - 1
  let doe := yoe * 365 + yoe / 4 - yoe / 100 + doy
  era * 146097 + doe - 719468

/-- Civil date `(year, month, day)` of a day number (days since 1970-01-01),
inverse of `days_from_civil`. -/
def civil_from_days (z : Nat) : Nat × Nat × Nat :=
  let z2 := z + 719468
  let era := z2 / 146097
  let doe := z2 % 146097
  let yoe := (doe - doe / 1460 + doe / 36524 - doe / 146096) / 365
  let y := yoe + era * 400
  let doy := doe - (365 * yoe + yoe / 4 - yoe / 100)
  let mp := (5 * doy + 2) / 153
  let d := doy - (153 * mp + 2) / 5 + 1
  let m := if mp < 10 then mp + 3 else mp - 9
  (if m ≤ 2 then y + 1 else y, m, d)

/-- Asia/Tokyo is the fixed offset UTC+9 (no DST). -/
def jstOffset : Nat := 9 * 3600

/-- Python string slicing `s[:n]`: the first `n` code points. -/
def pySlice (s : String) (n : Nat) : String := String.mk (s.data.take n)

/-- The `month/day` label of the instant `ts` (seconds since epoch) rendered
in JST: `f"{due.month}/{due.day}"`. -/
def date_label (ts : Nat) : String :=
  let c := civil_from_days ((ts + jstOffset) / 86400)
  toString c.2.1 ++ "/" ++ toString c.2.2

/-- The untruncated thread name `f"{display_name}/{date_label}"`, where the
due date is the base instant advanced by `timedelta(days=10)` and rendered in
JST (`astimezone(JST)`). -/
def raw_thread_name (display_name : String) (base_instant : Nat) : String :=
  display_name ++ "/" ++ date_label (base_instant + 10 * 86400)

/-- `make_thread_name(display_name, base_time)`: the raw name truncated to at
most 95 code points (`[:95]`). `base_instant` is the aware base time as
seconds since the epoch. -/
def make_thread_name (display_name : String) (base_instant : Nat) : String :=
  pySlice (raw_thread_name display_name base_instant) 95

/-- The instant (seconds since epoch) of the JST-aware datetime with civil
fields `y-m-d 00:00:00`; valid for dates from 1970-01-02 on. -/
def jst_timestamp (y m d : Nat) : Nat :=
  days_from_civil y m d * 86400 - jstOffset

/-! ## Name convention and thread identity resolver -/

/-- Python `str.startswith`: code-point list prefixing. -/
def py_startswith (s pre : String) : Bool :=
  pre.data.isPrefixOf s.data

/-- `name_belongs_to_user(thread_name, display_name)`:
`thread_name.startswith(f"{display_name}/")`. -/
def name_belongs_to_user (thread_name display_name : String) : Bool :=
  py_startswith thread_name (display_name ++ "/")

/-- The thread name's first path segment before the separator. -/
def first_segment (s : String) : String :=
  String.mk (s.data.takeWhile (fun c => c != '/'))

/-- A platform thread as the resolver sees it: identity and name. -/
structure SThread where
  tid : Nat
  name : String
deriving DecidableEq

/-- Outcome of `forum.archived_threads(limit=200)`: either the forum's
archived-thread sequence (the `limit=200` argument makes the platform yield
at most its first 200 elements) or a raised error, caught by the handler. -/
abbrev ArchivedResult := Except Unit (List SThread)

/-- `find_existing_user_thread(forum, display_name)`: scan the active threads
in enumeration order and return the first match; otherwise enumerate archived
threads (bounded at 200) and return the first match; a raised enumeration
error is logged and swallowed, yielding no match. -/
def find_existing_user_thread (active : List SThread)
    (archived : ArchivedResult) (display_name : String) : Option SThread :=
  match active.find? (fun t => name_belongs_to_user t.name display_name) with
  | some t => some t
  | none =>
    match archived with
    | Except.ok ts =>
      (ts.take 200).find? (fun t => name_belongs_to_user t.name display_name)
    | Except.error _ => none

/-! ## Base-time resolution in `on_message` -/

/-- A Python datetime: aware (an instant, seconds since epoch) or naive
(civil fields only, encoded as seconds since epoch-as-displayed). -/
inductive PyDatetime where
  | aware (instant : Nat)
  | naive (civil : Nat)
deriving DecidableEq

/-- `base_time.tzinfo is None`. -/
def tzinfo_is_none : PyDatetime → Bool
  | PyDatetime.naive _ => true
  | PyDatetime.aware _ => false

/-- `base_time.replace(tzinfo=JST)`: a naive value's civil fields are
reinterpreted in JST, giving the instant `civil - 9h`. -/
def replace_tz_jst : PyDatetime → PyDatetime
  | PyDatetime.naive civil => PyDatetime.aware (civil - jstOffset)
  | d => d

/-- Lines 177-179 of `on_message`:
`base_time = message.created_at or datetime.now(tz=JST)` followed by
`if base_time.tzinfo is None: base_time = base_time.replace(tzinfo=JST)`.
`now_jst` is the instant `datetime.now(tz=JST)` returns. -/
def resolve_base_time (created_at : Option PyDatetime) (now_jst : Nat) :
    PyDatetime :=
  let base := match created_at with
    | none => PyDatetime.aware now_jst
    | some d => d
  if tzinfo_is_none base then replace_tz_jst base else base

/-! ## Link-store lemmas -/

theorem lookupKey_eq_none_iff {k : String} :
    ∀ {s : Store}, lookupKey k s = none ↔ ∀ p ∈ s, p.1 ≠ k := by
  intro s
  induction s with
  | nil => simp [lookupKey]
  | cons p rest ih =>
    by_cases h : p.1 = k
    · simp [lookupKey, h]
    · simp [lookupKey, h, ih]

theorem removeKey_eq_self {k : String} {s : Store}
    (h : lookupKey k s = none) : removeKey k s = s := by
  rw [lookupKey_eq_none_iff] at h
  rw [removeKey]
  exact List.filter_eq_self.2 (fun p hp => by simpa using h p hp)

theorem lookupKey_append_none {k : String} {s u : Store}
    (h : lookupKey k s = none) : lookupKey k (s ++ u) = lookupKey k u := by
  induction s with
  | nil => simp
  | cons p rest ih =>
    by_cases hp : p.1 = k
    · simp [lookupKey, hp] at h
    · simp only [lookupKey, hp, if_false, List.cons_append] at h ⊢
      exact ih h

theorem lookupKey_mem {k : String} {v : List Nat} :
    ∀ {s : Store}, lookupKey k s = some v → (k, v) ∈ s := by
  intro s
  induction s with
  | nil => simp [lookupKey]
  | cons p rest ih =>
    by_cases h : p.1 = k
    · intro hl
      simp only [lookupKey, h, if_true, Option.some.injEq] at hl
      obtain ⟨p1, p2⟩ := p
      simp only at h hl
      subst h; subst hl
      exact List.mem_cons_self _ _
    · intro hl
      simp only [lookupKey, h, if_false] at hl
      exact List.mem_cons_of_mem _ (ih hl)

theorem mem_of_mem_removeKey {k : String} {p : String × List Nat} {s : Store}
    (h : p ∈ removeKey k s) : p ∈ s :=
  List.mem_of_mem_filter h

/-! ## Theorems for the frozen claims -/

/-- C3: starting from a store with no entry for `m`, `add(m,t)` followed by
`popAll(m)` returns a set containing exactly `t`, and a second `popAll(m)`
immediately afterwards returns the empty set. -/
theorem add_then_popAll_roundtrip (m t : Nat) (s : Store)
    (h : lookupKey (toString m) s = none) :
    ((pop_links m (add_link m t s).1).1).toFinset = {t} ∧
      (pop_links m (pop_links m (add_link m t s).1).2.1).1 = [] := by
  have hadd : (add_link m t s).1 = s ++ [(toString m, [t])] := by
    simp [add_link, h]
  have hlk : lookupKey (toString m) (s ++ [(toString m, [t])]) = some [t] := by
    rw [lookupKey_append_none h]; simp [lookupKey]
  have hrm : removeKey (toString m) (s ++ [(toString m, [t])]) = s := by
    rw [removeKey, List.filter_append]
    have h2 := removeKey_eq_self h
    rw [removeKey] at h2
    rw [h2]; simp
  have hpop1 : pop_links m (add_link m t s).1 = ([t], s, true) := by
    rw [hadd]; simp [pop_links, hlk, hrm]
  refine ⟨by rw [hpop1]; simp, ?_⟩
  rw [hpop1]
  simp [pop_links, h]

/-- Witness for `add_then_popAll_roundtrip` at `m = 7`, `t = 3`, empty
store. -/
theorem add_then_popAll_roundtrip_witness :
    lookupKey (toString 7) ([] : Store) = none ∧
      (((pop_links 7 (add_link 7 3 ([] : Store)).1).1).toFinset = {3} ∧
        (pop_links 7 (pop_links 7 (add_link 7 3 ([] : Store)).1).2.1).1 = []) :=
  ⟨by decide, add_then_popAll_roundtrip 7 3 [] (by decide)⟩

/-- C8: for a message identity with no entry in the store, `popAll` returns
the empty list, leaves the store unchanged and performs no durable flush; the
deletion-trigger handler stops silently, returning the unchanged store and
issuing no platform call. -/
theorem pop_absent_silent (m : Nat) (s : Store) (fetch : Nat → FetchResult)
    (h : lookupKey (toString m) s = none) :
    pop_links m s = ([], s, false) ∧
      on_raw_message_delete fetch m s = (s, []) := by
  have h1 : pop_links m s = ([], s, false) := by
    simp [pop_links, h, removeKey_eq_self h]
  exact ⟨h1, by simp [on_raw_message_delete, h1]⟩

/-- Witness for `pop_absent_silent` at `m = 42` on the empty store. -/
theorem pop_absent_silent_witness :
    lookupKey (toString 42) ([] : Store) = none ∧
      (pop_links 42 ([] : Store) = ([], [], false) ∧
        on_raw_message_delete (fun _ => FetchResult.thread) 42 ([] : Store) =
          ([], [])) :=
  ⟨by decide, pop_absent_silent 42 [] (fun _ => FetchResult.thread) (by decide)⟩

/-- C1: after `add(m,t1)` and `add(m,t2)` on an initially empty store,
the deletion handler for `m` (with the platform resolving both ids to
threads) issues delete calls for exactly the set `{t1, t2}`, and a subsequent
`popAll(m)` returns the empty set. -/
theorem cascade_deletes_linked_threads (m t1 t2 : Nat)
    (fetch : Nat → FetchResult)
    (h1 : fetch t1 = FetchResult.thread) (h2 : fetch t2 = FetchResult.thread) :
    (deleteCallsOf
        (on_raw_message_delete fetch m
          (add_link m t2 (add_link m t1 ([] : Store)).1).1).2).toFinset =
      {t1, t2} ∧
    (pop_links m
        (on_raw_message_delete fetch m
          (add_link m t2 (add_link m t1 ([] : Store)).1).1).1).1 = [] := by
  have hadd1 : (add_link m t1 ([] : Store)).1 = [(toString m, [t1])] := by
    simp [add_link, lookupKey]
  by_cases ht : t2 = t1
  · subst ht
    have hadd2 :
        (add_link m t2 [(toString m, [t2])]).1 = [(toString m, [t2])] := by
      simp [add_link, lookupKey]
    have hdel :
        on_raw_message_delete fetch m [(toString m, [t2])] =
          ([], [PCall.fetchChannel t2, PCall.deleteThread t2]) := by
      simp [on_raw_message_delete, pop_links, lookupKey, removeKey,
        delete_cascade, h2]
    rw [hadd1, hadd2, hdel]
    refine ⟨by simp [deleteCallsOf], by simp [pop_links, lookupKey, removeKey]⟩
  · have hadd2 :
        (add_link m t2 [(toString m, [t1])]).1 = [(toString m, [t1, t2])] := by
      simp [add_link, lookupKey, setKey, ht]
    have hdel :
        on_raw_message_delete fetch m [(toString m, [t1, t2])] =
          ([], [PCall.fetchChannel t1, PCall.deleteThread t1,
                PCall.fetchChannel t2, PCall.deleteThread t2]) := by
      simp [on_raw_message_delete, pop_links, lookupKey, removeKey,
        delete_cascade, h1, h2]
    rw [hadd1, hadd2, hdel]
    refine ⟨by simp [deleteCallsOf], by simp [pop_links, lookupKey, removeKey]⟩

/-- Witness for `cascade_deletes_linked_threads` at `m = 9`, `t1 = 3`,
`t2 = 4`, with an all-threads platform. -/
theorem cascade_deletes_linked_threads_witness :
    ((fun _ => FetchResult.thread : Nat → FetchResult) 3 =
        FetchResult.thread) ∧
    ((fun _ => FetchResult.thread : Nat → FetchResult) 4 =
        FetchResult.thread) ∧
    ((deleteCallsOf
        (on_raw_message_delete (fun _ => FetchResult.thread) 9
          (add_link 9 4 (add_link 9 3 ([] : Store)).1).1).2).toFinset =
      {3, 4} ∧
    (pop_links 9
        (on_raw_message_delete (fun _ => FetchResult.thread) 9
          (add_link 9 4 (add_link 9 3 ([] : Store)).1).1).1).1 = []) :=
  ⟨rfl, rfl,
    cascade_deletes_linked_threads 9 3 4 (fun _ => FetchResult.thread) rfl rfl⟩

/-! ## Router lemmas -/

theorem gather_loop_eq_filter_dedup (isForum : Nat → Bool) :
    ∀ (c seen : List Nat),
      gather_loop isForum seen c = (dedup_first seen c).filter isForum := by
  intro c
  induction c with
  | nil => intro seen; rfl
  | cons x rest ih =>
    intro seen
    by_cases hx : x ∈ seen
    · simp [gather_loop, dedup_first, hx, ih]
    · by_cases hf : isForum x
      · simp [gather_loop, dedup_first, hx, hf, ih]
      · simp [gather_loop, dedup_first, hx, hf, ih]

theorem dedup_first_sublist :
    ∀ (c seen : List Nat), List.Sublist (dedup_first seen c) c := by
  intro c
  induction c with
  | nil => intro seen; simp [dedup_first]
  | cons x rest ih =>
    intro seen
    by_cases hx : x ∈ seen
    · simp only [dedup_first, hx, if_true]
      exact List.Sublist.cons x (ih seen)
    · simp only [dedup_first, hx, if_false]
      exact List.Sublist.cons₂ x (ih (x :: seen))

theorem dedup_first_nodup :
    ∀ (c seen : List Nat),
      (dedup_first seen c).Nodup ∧ ∀ x ∈ dedup_first seen c, x ∉ seen := by
  intro c
  induction c with
  | nil => intro seen; simp [dedup_first]
  | cons x rest ih =>
    intro seen
    by_cases hx : x ∈ seen
    · simp only [dedup_first, hx, if_true]
      exact ih seen
    · simp only [dedup_first, hx, if_false]
      obtain ⟨hnd, hns⟩ := ih (x :: seen)
      refine ⟨List.nodup_cons.2 ⟨fun hxd => ?_, hnd⟩, ?_⟩
      · exact (hns x hxd) (List.mem_cons_self x seen)
      · intro y hy
        rcases List.mem_cons.1 hy with hy | hy
        · exact hy ▸ hx
        · exact fun hys => (hns y hy) (List.mem_cons_of_mem x hys)

/-! ## Theorems for the router claims -/

/-- C5: the router is deterministic (equal inputs give the identical ordered
output), its output has no duplicate forum identities, it equals the
first-seen deduplication of the accumulated candidates filtered to resolvable
forums, and its order is a sublist of the accumulated candidate order (male
label lists before female label lists, as `forum_candidates` appends them). -/
theorem router_deterministic_nodup_ordered (cfg : RoutingConfig)
    (roles : List Nat) (isForum : Nat → Bool) :
    (∀ cfg2 roles2 isF2, cfg2 = cfg → roles2 = roles → isF2 = isForum →
      gather_target_forums cfg2 roles2 isF2 =
        gather_target_forums cfg roles isForum) ∧
    (gather_target_forums cfg roles isForum).Nodup ∧
    gather_target_forums cfg roles isForum =
      (dedup_first [] (forum_candidates cfg roles)).filter isForum ∧
    List.Sublist (gather_target_forums cfg roles isForum)
      (forum_candidates cfg roles) := by
  have hchar : gather_target_forums cfg roles isForum =
      (dedup_first [] (forum_candidates cfg roles)).filter isForum :=
    gather_loop_eq_filter_dedup isForum (forum_candidates cfg roles) []
  refine ⟨?_, ?_, hchar, ?_⟩
  · intro cfg2 roles2 isF2 h1 h2 h3
    rw [h1, h2, h3]
  · rw [hchar]
    exact ((dedup_first_nodup (forum_candidates cfg roles) []).1).filter _
  · rw [hchar]
    exact (List.filter_sublist _).trans
      (dedup_first_sublist (forum_candidates cfg roles) [])

/-- Witness for `router_deterministic_nodup_ordered` at a concrete
configuration, role set and channel oracle, with the determinism conjunct
instantiated and its equality hypotheses discharged by `rfl`. -/
theorem router_deterministic_nodup_ordered_witness :
    gather_target_forums (⟨1, 2, [7, 8], [8, 9], []⟩ : RoutingConfig) [1, 2]
        (fun _ => true) =
      gather_target_forums ⟨1, 2, [7, 8], [8, 9], []⟩ [1, 2]
        (fun _ => true) ∧
    (gather_target_forums (⟨1, 2, [7, 8], [8, 9], []⟩ : RoutingConfig) [1, 2]
      (fun _ => true)).Nodup ∧
    gather_target_forums (⟨1, 2, [7, 8], [8, 9], []⟩ : RoutingConfig) [1, 2]
        (fun _ => true) =
      (dedup_first []
        (forum_candidates ⟨1, 2, [7, 8], [8, 9], []⟩ [1, 2])).filter
        (fun _ => true) ∧
    List.Sublist
      (gather_target_forums (⟨1, 2, [7, 8], [8, 9], []⟩ : RoutingConfig)
        [1, 2] (fun _ => true))
      (forum_candidates ⟨1, 2, [7, 8], [8, 9], []⟩ [1, 2]) :=
  ⟨(router_deterministic_nodup_ordered ⟨1, 2, [7, 8], [8, 9], []⟩ [1, 2]
      (fun _ => true)).1 _ _ _ rfl rfl rfl,
    (router_deterministic_nodup_ordered ⟨1, 2, [7, 8], [8, 9], []⟩ [1, 2]
      (fun _ => true)).2.1,
    (router_deterministic_nodup_ordered ⟨1, 2, [7, 8], [8, 9], []⟩ [1, 2]
      (fun _ => true)).2.2.1,
    (router_deterministic_nodup_ordered ⟨1, 2, [7, 8], [8, 9], []⟩ [1, 2]
      (fun _ => true)).2.2.2⟩

/-- C2 counterexample: with male role 1 held by the author, an empty
male-label forum list, and default list `[99]`, a label matched yet the
router's output is `[99]`, which can only come from the default list — the
default list is consulted even though a label matched, contrary to the
claimed "if and only if no configured label's role identity is present". -/
theorem router_default_counterexample :
    ([1].contains (RoutingConfig.mk 1 2 [] [10] [99]).maleRoleId = true) ∧
    gather_target_forums ⟨1, 2, [], [10], [99]⟩ [1] (fun _ => true) = [99] ∧
    99 ∉ (RoutingConfig.mk 1 2 [] [10] [99]).maleForumIds ∧
    99 ∉ (RoutingConfig.mk 1 2 [] [10] [99]).femaleForumIds ∧
    99 ∈ (RoutingConfig.mk 1 2 [] [10] [99]).defaultForumIds := by
  decide

/-- C2 amended: the router falls back to the configured default forum-identity
list if and only if the accumulated label candidate list is empty — that is,
no configured label's role identity is present in the author's role set, or
every matched label's configured forum list is empty; when the accumulated
candidate list is non-empty the default list is not consulted. -/
theorem router_default_fallback (cfg : RoutingConfig) (roles : List Nat)
    (isForum : Nat → Bool) :
    (label_candidates cfg roles = [] →
      gather_target_forums cfg roles isForum =
        gather_loop isForum [] cfg.defaultForumIds) ∧
    (label_candidates cfg roles ≠ [] → ∀ D,
      gather_target_forums { cfg with defaultForumIds := D } roles isForum =
        gather_target_forums cfg roles isForum) := by
  constructor
  · intro h
    simp [gather_target_forums, forum_candidates, h]
  · intro h D
    have h2 : label_candidates { cfg with defaultForumIds := D } roles =
        label_candidates cfg roles := rfl
    cases hlc : label_candidates cfg roles with
    | nil => exact absurd hlc h
    | cons a l =>
      simp [gather_target_forums, forum_candidates, h2, hlc]

/-- Witness for `router_default_fallback`: the fallback case at a matched
label with an empty forum list, and the no-fallback case at a matched label
with a non-empty forum list. -/
theorem router_default_fallback_witness :
    (label_candidates ⟨1, 2, [], [], [99]⟩ [1] = [] ∧
      gather_target_forums ⟨1, 2, [], [], [99]⟩ [1] (fun _ => true) =
        gather_loop (fun _ => true) []
          (RoutingConfig.mk 1 2 [] [] [99]).defaultForumIds) ∧
    (label_candidates ⟨1, 2, [5], [], [99]⟩ [1] ≠ [] ∧
      gather_target_forums
          { (⟨1, 2, [5], [], [99]⟩ : RoutingConfig) with
              defaultForumIds := [123] } [1] (fun _ => true) =
        gather_target_forums ⟨1, 2, [5], [], [99]⟩ [1] (fun _ => true)) :=
  ⟨⟨by decide,
      (router_default_fallback ⟨1, 2, [], [], [99]⟩ [1] (fun _ => true)).1
        (by decide)⟩,
    ⟨by decide,
      (router_default_fallback ⟨1, 2, [5], [], [99]⟩ [1] (fun _ => true)).2
        (by decide) [123]⟩⟩

/-! ## Cross-linking invariant lemmas -/

theorem NoCrossLink_pop (m : Nat) {s : Store} (h : NoCrossLink s) :
    NoCrossLink (pop_links m s).2.1 := by
  intro p hp q hq hne t ht
  exact h p (mem_of_mem_removeKey hp) q (mem_of_mem_removeKey hq) hne t ht

theorem NoCrossLink_add (m t : Nat) {s : Store} (h : NoCrossLink s)
    (hfr : ∀ p ∈ s, p.1 ≠ toString m → t ∉ p.2) :
    NoCrossLink (add_link m t s).1 := by
  rw [add_link]
  cases hlk : lookupKey (toString m) s with
  | none =>
    intro p hp q hq hne u hup huq
    simp only [List.mem_append, List.mem_singleton] at hp hq
    rcases hp with hp | hp <;> rcases hq with hq | hq
    · exact h p hp q hq hne u hup huq
    · subst hq
      simp only [List.mem_singleton] at huq
      subst huq
      exact hfr p hp hne hup
    · subst hp
      simp only [List.mem_singleton] at hup
      subst hup
      exact hfr q hq (fun he => hne he.symm) huq
    · subst hp; subst hq; exact absurd rfl hne
  | some ids =>
    by_cases hmem : t ∈ ids
    · simpa [hmem] using h
    · have hk : (toString m, ids) ∈ s := lookupKey_mem hlk
      simp only [hmem, if_false]
      intro p' hp' q' hq' hne u hup huq
      obtain ⟨p, hp, rfl⟩ := List.mem_map.1 hp'
      obtain ⟨q, hq, rfl⟩ := List.mem_map.1 hq'
      by_cases hpk : p.1 = toString m <;> by_cases hqk : q.1 = toString m
      · simp only [hpk, hqk, if_true] at hne
        exact absurd rfl hne
      · simp only [hpk, hqk, if_true, if_false] at hup huq hne
        rcases List.mem_append.1 hup with hu | hu
        · exact h _ hk q hq (fun he => hqk he.symm) u hu huq
        · simp only [List.mem_singleton] at hu
          subst hu
          exact hfr q hq hqk huq
      · simp only [hpk, hqk, if_true, if_false] at hup huq hne
        rcases List.mem_append.1 huq with hu | hu
        · exact h p hp _ hk hpk u hup hu
        · simp only [List.mem_singleton] at hu
          subst hu
          exact hfr p hp hpk hup
      · simp only [hpk, hqk, if_false] at hup huq hne
        exact h p hp q hq hne u hup huq

/-! ## Theorems for the cross-linking claim -/

/-- C9 counterexample: the concrete operation sequence
`add(1,5); add(2,5)` from the empty store records thread id `5` under the two
distinct message keys `"1"` and `"2"`, violating the claimed invariant. -/
theorem crosslink_counterexample :
    ¬ NoCrossLink (runOps [] [LinkOp.add 1 5, LinkOp.add 2 5]) := by
  decide

/-- C9 amended: the no-cross-linking invariant is preserved by every sequence
of `add` / `popAll` operations in which each `add(m,t)` links a thread id not
recorded, at that point, under a different message key (as in the creation
path, where thread ids are platform-fresh). -/
theorem crosslink_invariant_of_fresh (s : Store) (ops : List LinkOp)
    (hInv : NoCrossLink s) (hFresh : freshAdds s ops = true) :
    NoCrossLink (runOps s ops) := by
  induction ops generalizing s with
  | nil => exact hInv
  | cons op rest ih =>
    have hrun : runOps s (op :: rest) = runOps (applyOp s op) rest := rfl
    rw [hrun]
    cases op with
    | add m t =>
      rw [freshAdds, Bool.and_eq_true] at hFresh
      obtain ⟨h1, h2⟩ := hFresh
      have hfr : ∀ p ∈ s, p.1 ≠ toString m → t ∉ p.2 := by
        intro p hp hne
        have hx := List.all_eq_true.1 h1 p hp
        rw [decide_eq_true_eq] at hx
        exact hx.resolve_left hne
      exact ih _ (NoCrossLink_add m t hInv hfr) h2
    | popAll m =>
      rw [freshAdds] at hFresh
      exact ih _ (NoCrossLink_pop m hInv) hFresh

/-- Witness for `crosslink_invariant_of_fresh`: a concrete fresh sequence
(two threads for message 1, a pop, then a reused thread id for message 2,
fresh again after the pop). -/
theorem crosslink_invariant_of_fresh_witness :
    NoCrossLink ([] : Store) ∧
    freshAdds []
        [LinkOp.add 1 5, LinkOp.add 1 6, LinkOp.popAll 1, LinkOp.add 2 5] =
      true ∧
    NoCrossLink (runOps []
      [LinkOp.add 1 5, LinkOp.add 1 6, LinkOp.popAll 1, LinkOp.add 2 5]) :=
  ⟨by decide, by decide,
    crosslink_invariant_of_fresh []
      [LinkOp.add 1 5, LinkOp.add 1 6, LinkOp.popAll 1, LinkOp.add 2 5]
      (by decide) (by decide)⟩

/-! ## Theorems for thread naming and base-time resolution -/

theorem make_thread_name_length (dn : String) (base : Nat) :
    (make_thread_name dn base).length =
      min 95 (raw_thread_name dn base).length := by
  show ((raw_thread_name dn base).data.take 95).length = _
  rw [List.length_take]
  rfl

/-- C4: the canonical thread name is the display name, a `/` separator and
the JST month/day of the creation time advanced by 10 days, truncated to at
most 95 code points; for display name `"Alice"` and creation timestamp
2024-01-01T00:00:00 JST it equals `"Alice/1/11"`, and any raw name longer
than 95 code points is truncated to exactly 95. -/
theorem thread_name_format :
    make_thread_name "Alice" (jst_timestamp 2024 1 1) = "Alice/1/11" ∧
    (∀ dn base, 95 < (raw_thread_name dn base).length →
      (make_thread_name dn base).length = 95) ∧
    (∀ dn base, (make_thread_name dn base).length ≤ 95) := by
  refine ⟨by decide, ?_, ?_⟩
  · intro dn base h
    rw [make_thread_name_length]
    omega
  · intro dn base
    rw [make_thread_name_length]
    omega

/-- Witness for `thread_name_format`: a 100-character display name makes the
raw name longer than 95 code points and the computed name exactly 95. -/
theorem thread_name_format_witness :
    95 < (raw_thread_name (String.mk (List.replicate 100 'a')) 0).length ∧
      (make_thread_name (String.mk (List.replicate 100 'a')) 0).length = 95 :=
  ⟨by decide, thread_name_format.2.1 (String.mk (List.replicate 100 'a')) 0
    (by decide)⟩

/-- C10: in the creation path, an absent creation timestamp is replaced by
the current JST time, a naive timestamp is reinterpreted in JST (its civil
fields minus the +9h offset), an aware timestamp is kept, and the resolved
base time is always timezone-aware. -/
theorem base_time_always_aware (now c i : Nat) :
    resolve_base_time none now = PyDatetime.aware now ∧
    resolve_base_time (some (PyDatetime.naive c)) now =
      PyDatetime.aware (c - jstOffset) ∧
    resolve_base_time (some (PyDatetime.aware i)) now = PyDatetime.aware i ∧
    (∀ ca, tzinfo_is_none (resolve_base_time ca now) = false) := by
  refine ⟨rfl, rfl, rfl, ?_⟩
  intro ca
  cases ca with
  | none => rfl
  | some d => cases d <;> rfl

/-! ## String lemmas for the name convention -/

theorem isPrefixOf_iff :
    ∀ (p l : List Char), p.isPrefixOf l = true ↔ ∃ t, p ++ t = l := by
  intro p
  induction p with
  | nil => intro l; simp [List.isPrefixOf]
  | cons a as ih =>
    intro l
    cases l with
    | nil => simp [List.isPrefixOf]
    | cons b bs =>
      simp only [List.isPrefixOf, Bool.and_eq_true, beq_iff_eq,
        List.cons_append, List.cons.injEq]
      constructor
      · rintro ⟨rfl, h⟩
        obtain ⟨t, ht⟩ := (ih bs).1 h
        exact ⟨t, rfl, ht⟩
      · rintro ⟨t, rfl, ht⟩
        exact ⟨rfl, (ih bs).2 ⟨t, ht⟩⟩

theorem takeWhile_append_stop {xs ys : List Char} (hxs : '/' ∉ xs) :
    List.takeWhile (fun c => c != '/') (xs ++ '/' :: ys) = xs := by
  induction xs with
  | nil => simp [List.takeWhile]
  | cons a as ih =>
    have ha : (a != '/') = true := by
      simp only [bne_iff_ne, ne_eq]
      exact fun h => hxs (h ▸ List.mem_cons_self a as)
    simp only [List.cons_append, List.takeWhile_cons, ha, if_true]
    rw [ih (fun h => hxs (List.mem_cons_of_mem a h))]

theorem exists_takeWhile_split {l : List Char} (h : '/' ∈ l) :
    ∃ rest, l = l.takeWhile (fun c => c != '/') ++ '/' :: rest := by
  induction l with
  | nil => cases h
  | cons a as ih =>
    by_cases ha : a = '/'
    · subst ha
      exact ⟨as, by simp [List.takeWhile_cons]⟩
    · have ha2 : (a != '/') = true := by simpa [bne_iff_ne] using ha
      have has : '/' ∈ as := by
        rcases List.mem_cons.1 h with h1 | h1
        · exact absurd h1.symm ha
        · exact h1
      obtain ⟨rest, hr⟩ := ih has
      refine ⟨rest, ?_⟩
      simp only [List.takeWhile_cons, ha2, if_true, List.cons_append]
      exact congrArg (a :: ·) hr

theorem belongs_data (name dn : String) :
    name_belongs_to_user name dn = true ↔
      ∃ t, dn.data ++ '/' :: t = name.data := by
  show (dn.data ++ ['/']).isPrefixOf name.data = true ↔ _
  rw [isPrefixOf_iff]
  constructor
  · rintro ⟨t, ht⟩
    exact ⟨t, by simpa using ht⟩
  · rintro ⟨t, ht⟩
    exact ⟨t, by simpa using ht⟩

theorem first_segment_of_belongs {name dn : String} (hdn : '/' ∉ dn.data)
    (h : name_belongs_to_user name dn = true) : first_segment name = dn := by
  obtain ⟨t, ht⟩ := (belongs_data name dn).1 h
  have : name.data = dn.data ++ '/' :: t := ht.symm
  show String.mk (name.data.takeWhile (fun c => c != '/')) = dn
  rw [this, takeWhile_append_stop hdn]

theorem find_existing_belongs {active : List SThread}
    {archived : ArchivedResult} {dn : String} {t : SThread}
    (h : find_existing_user_thread active archived dn = some t) :
    name_belongs_to_user t.name dn = true := by
  rw [find_existing_user_thread.eq_def] at h
  cases hact : active.find? (fun u => name_belongs_to_user u.name dn) with
  | some u =>
    rw [hact] at h
    dsimp only at h
    cases h
    have hu := List.find?_some hact
    simpa using hu
  | none =>
    rw [hact] at h
    cases archived with
    | ok ts =>
      dsimp only at h
      have hu := List.find?_some h
      simpa using hu
    | error e =>
      dsimp only at h
      cases h

/-! ## Theorems for the name-convention claims -/

/-- C7 counterexample: for thread name `"a/b/c"` and display name `"a/b"`,
the code's membership test (`startswith "a/b/"`) succeeds although the
name's first path segment before `/` is `"a"`, not `"a/b"` — the claimed
equivalence fails at this input. -/
theorem belongs_first_segment_counterexample :
    ¬ (name_belongs_to_user "a/b/c" "a/b" = true ↔
        first_segment "a/b/c" = "a/b") := by
  decide

/-- C7 amended: for a separator-free display name `D` and a thread name that
contains a separator, the thread belongs to `D` iff the name's first path
segment before `/` equals `D`; consequently, for separator-free display names
`D1 ≠ D2`, `findExisting` called for `D1` never returns a thread belonging to
`D2`. -/
theorem belongs_iff_first_segment :
    (∀ name dn : String, '/' ∉ dn.data → '/' ∈ name.data →
      (name_belongs_to_user name dn = true ↔ first_segment name = dn)) ∧
    (∀ (d1 d2 : String) (active : List SThread) (archived : ArchivedResult)
        (t : SThread), '/' ∉ d1.data → '/' ∉ d2.data → d1 ≠ d2 →
      find_existing_user_thread active archived d1 = some t →
      name_belongs_to_user t.name d2 = false) := by
  constructor
  · intro name dn hdn hname
    constructor
    · exact first_segment_of_belongs hdn
    · intro hfs
      obtain ⟨rest, hr⟩ := exists_takeWhile_split hname
      have hdata : (first_segment name).data =
          name.data.takeWhile (fun c => c != '/') := rfl
      rw [hfs] at hdata
      apply (belongs_data name dn).2
      exact ⟨rest, by rw [← hdata] at hr; exact hr.symm⟩
  · intro d1 d2 active archived t hd1 hd2 hne hfind
    have hb1 : name_belongs_to_user t.name d1 = true :=
      find_existing_belongs hfind
    cases hb2 : name_belongs_to_user t.name d2 with
    | false => rfl
    | true =>
      have h1 := first_segment_of_belongs hd1 hb1
      have h2 := first_segment_of_belongs hd2 hb2
      exact absurd (h1 ▸ h2) hne

/-- Witness for `belongs_iff_first_segment`: the equivalence at
`("Alice/1/11", "Alice")` and the non-collision of `"Alice"` and `"Bob"` on a
forum holding the thread `"Alice/1/11"`. -/
theorem belongs_iff_first_segment_witness :
    (('/' ∉ ("Alice" : String).data) ∧ ('/' ∈ ("Alice/1/11" : String).data) ∧
      (name_belongs_to_user "Alice/1/11" "Alice" = true ↔
        first_segment "Alice/1/11" = "Alice")) ∧
    (find_existing_user_thread [⟨1, "Alice/1/11"⟩] (Except.ok []) "Alice" =
        some ⟨1, "Alice/1/11"⟩ ∧
      name_belongs_to_user "Alice/1/11" "Bob" = false) :=
  ⟨⟨by decide, by decide,
      belongs_iff_first_segment.1 "Alice/1/11" "Alice" (by decide)
        (by decide)⟩,
    ⟨by decide,
      belongs_iff_first_segment.2 "Alice" "Bob" [⟨1, "Alice/1/11"⟩]
        (Except.ok []) ⟨1, "Alice/1/11"⟩ (by decide) (by decide) (by decide)
        (by decide)⟩⟩

/-- C6: the resolver returns the first matching active thread (in enumeration
order) without consulting the archived enumeration; only when no active
thread matches does it scan the archived threads (bounded at 200, in their
given order), and an archived-enumeration error is swallowed, yielding
"no match found" instead of propagating. -/
theorem resolver_active_first_error_swallowed (active : List SThread)
    (dn : String) :
    (∀ t, active.find? (fun u => name_belongs_to_user u.name dn) = some t →
      ∀ archived : ArchivedResult,
        find_existing_user_thread active archived dn = some t) ∧
    (active.find? (fun u => name_belongs_to_user u.name dn) = none →
      (∀ ts, find_existing_user_thread active (Except.ok ts) dn =
        (ts.take 200).find? (fun u => name_belongs_to_user u.name dn)) ∧
      ∀ e, find_existing_user_thread active (Except.error e) dn = none) := by
  constructor
  · intro t ht archived
    simp [find_existing_user_thread, ht]
  · intro hnone
    exact ⟨fun ts => by simp [find_existing_user_thread, hnone],
      fun e => by simp [find_existing_user_thread, hnone]⟩

/-- Witness for `resolver_active_first_error_swallowed`: an active match is
returned even when the archived enumeration fails, and with no active match a
failing archived enumeration yields no match. -/
theorem resolver_active_first_error_swallowed_witness :
    (([⟨1, "Bob/2/2"⟩, ⟨2, "Alice/1/11"⟩] : List SThread).find?
        (fun u => name_belongs_to_user u.name "Alice") =
        some ⟨2, "Alice/1/11"⟩ ∧
      find_existing_user_thread [⟨1, "Bob/2/2"⟩, ⟨2, "Alice/1/11"⟩]
        (Except.error ()) "Alice" = some ⟨2, "Alice/1/11"⟩) ∧
    (([⟨1, "Bob/2/2"⟩] : List SThread).find?
        (fun u => name_belongs_to_user u.name "Carol") = none ∧
      find_existing_user_thread [⟨1, "Bob/2/2"⟩] (Except.error ()) "Carol" =
        none) :=
  ⟨⟨by decide,
      (resolver_active_first_error_swallowed [⟨1, "Bob/2/2"⟩,
        ⟨2, "Alice/1/11"⟩] "Alice").1 ⟨2, "Alice/1/11"⟩ (by decide)
        (Except.error ())⟩,
    ⟨by decide,
      ((resolver_active_first_error_swallowed [⟨1, "Bob/2/2"⟩] "Carol").2
        (by decide)).2 ()⟩⟩

end Suretto
